import Mathlib

/-!
Shallow embedding of the memory-allocation reporter (`src/bin/mem.rs`).

The program inspects an ELF image and, for each of two fixed memory regions,
prints an allocation table: one line per section (address range, size,
human-readable size, percentage, name), a padding line whenever the running
`last` address violates the next section's alignment, and a totals line.

Modelling conventions:
* `u64` values are `Nat` with arithmetic reduced `% 2^64` where the Rust code
  performs unchecked (release-profile wrapping) arithmetic: `align - 1`,
  `start + size`, `total += size + pad`.
* The `Result`/panic distinction of `sec.name().expect(..)` (a fatal error for
  the whole report) is an `Except String` value; a symbol name that fails to
  decode is an `Option.none` dropped by `filterMap`, mirroring
  `.filter_map(|sym| sym.name().map(..).ok())`.
* Printed lines are modelled as the data each `println!` interpolates: a
  padding line carries only the section's alignment (the format string is
  `"{:>21}\t0x{align:05x}\t{:>11}\t{:>8}\t{:<}"` applied to the constant
  strings `"(padding)"`, `"—"`, `"—"`, `"—"`), a section line carries
  start, end, size and name.  The floating-point percentage column is pure
  presentation and carries no information beyond `size` and the region
  capacity, so it is not modelled.
* The human-readable `Display for Bytes` computes its fractional part in
  `f64`; the embedding carries that fraction (already scaled by 1000, as the
  format string `".{:03.0}"` displays it) as an exact rational.  For every
  input considered here the `f64` computation is exact (dyadic values well
  inside 53 bits), so the rational model coincides with the code.
-/

namespace Mem

/-- The modulus of Rust `u64` arithmetic, `2^64`. -/
def M : Nat := 2 ^ 64

/-- Rust `type Region = std::ops::Range<u64>;` — a half-open interval of addresses.
`stop` is the Rust field `end` (a Lean keyword). -/
structure Region where
  start : Nat
  stop : Nat
deriving DecidableEq

/-- Rust `Range::contains`: `start <= a && a < end`. -/
def Region.containsB (r : Region) (a : Nat) : Bool :=
  decide (r.start ≤ a) && decide (a < r.stop)

/-- Source constant `DRAM: Region = 0x3FC80000..(0x3FC80000 + 0x50000 + 0x600)`. -/
def DRAM : Region := ⟨0x3FC80000, 0x3FC80000 + 0x50000 + 0x600⟩

/-- Source constant `IRAM: Region = (0x4037C000 + 0x4000)..((0x4037C000 + 0x4000) + (400 * 1024 - 0x400));` -/
def IRAM : Region := ⟨0x4037C000 + 0x4000, 0x4037C000 + 0x4000 + (400 * 1024 - 0x400)⟩

/-- A section as the `object` crate exposes it to `print_alloc`: address,
size, alignment, and a name that is `none` when it cannot be decoded as
UTF-8 (`sec.name()` returns `Err`). -/
structure Sectn where
  address : Nat
  size : Nat
  align : Nat
  name : Option String
deriving DecidableEq

/-- A symbol as exposed to `print_alloc`: an address and a name that is
`none` when `sym.name()` fails to decode. -/
structure Symbol where
  address : Nat
  name : Option String
deriving DecidableEq

/-- One printed report line, as the data interpolated into its `println!`.
The padding line elides everything except the alignment: the `addr` column
holds the constant string `"(padding)"`, the `size` column holds the
section's alignment (`0x{align:05x}`), and the remaining columns hold the
constant `"—"`. -/
inductive Line where
  | padding (align : Nat) : Line
  | sec (start stop size : Nat) (name : String) : Line
deriving DecidableEq

/-- Rust `let mask = align - 1;` — unchecked `u64` subtraction, which wraps:
alignment `0` yields `2^64 - 1`. -/
def maskOf (align : Nat) : Nat := (align + (M - 1)) % M

/-- Rust `let pad = last & mask;`. -/
def padOf (align last : Nat) : Nat := last &&& maskOf align

/-- The body of the `for sec in ...` loop for one section: emit the padding
line if `pad > 0`, resolve the name (fatal on failure), emit the section
line, and advance `total` and `last`. -/
def step (total last : Nat) (s : Sectn) : Except String (List Line × Nat × Nat) :=
  let pad := padOf s.align last
  let padLines := if 0 < pad then [Line.padding s.align] else []
  match s.name with
  | none => .error "non utf-8 section name"
  | some nm =>
    let start := s.address
    let sz := s.size
    let stop := (start + sz) % M
    .ok (padLines ++ [Line.sec start stop sz nm], (total + (sz + pad) % M) % M, stop)

/-- The section loop of `print_alloc`, folded over the (already filtered)
section list with the running `total` and `last` state. -/
def printAllocGo : List Sectn → Nat → Nat → Except String (List Line × Nat)
  | [], total, _ => .ok ([], total)
  | s :: rest, total, last =>
    match step total last s with
    | .error e => .error e
    | .ok (lines, total2, last2) =>
      match printAllocGo rest total2 last2 with
      | .error e => .error e
      | .ok (lines2, t) => .ok (lines ++ lines2, t)

/-- The numeric core of `print_alloc`: filter the sections to the region
(`object.sections().filter(|s| r.contains(&s.address()))`), then run the
loop with `total = Bytes(0)` and `last = r.start`.  Returns the report lines
and the final total; `Except.error` models the `expect` panic on an
undecodable section name. -/
def print_alloc (r : Region) (secs : List Sectn) : Except String (List Line × Nat) :=
  printAllocGo (secs.filter fun s => r.containsB s.address) 0 r.start

/-- The symbol comparator of `syms.sort_by(|&(aa, an, _), &(ba, bn, _)|
aa.cmp(&ba).then(an.cmp(bn).reverse()))`. -/
def symCmp (a b : Nat × String) : Ordering :=
  (compare a.1 b.1).then (compare a.2 b.2).swap

/-- Rust `sort_by` keeps an element before another exactly when the comparator
does not answer `Greater`. -/
def symLe (a b : Nat × String) : Bool := symCmp a b != Ordering.gt

/-- Symbol selection: filter to the region, then keep only symbols whose
name decodes, paired with their address
(`.filter(..).filter_map(|sym| sym.name().map(|name| (addr, name, sym)).ok())`;
the third component, the symbol descriptor itself, carries no further data
used by the program). -/
def selectSyms (r : Region) (syms : List Symbol) : List (Nat × String) :=
  (syms.filter fun s => r.containsB s.address).filterMap
    fun s => s.name.map fun n => (s.address, n)

/-- Sorting step `syms.sort_by(..)` — Rust's `sort_by` is a stable merge sort. -/
def sortSyms (l : List (Nat × String)) : List (Nat × String) :=
  l.mergeSort symLe

/-- The unit table of `Display for Bytes`: bit shift and suffix. -/
def byteUnits : List (Nat × String) :=
  [(60, "EiB"), (50, "PiB"), (40, "TiB"), (30, "GiB"), (20, "MiB"), (10, "KiB")]

/-- Rust `Display for Bytes`: find the largest unit whose shifted value is
non-zero, else fall back to `(d, 0.0, "B")`.  Returns the integer part, the
fractional part already scaled by 1000 (the value the format string
`".{:03.0}"` displays), and the unit suffix.  The fraction is
`(d % div) as f64 / div as f64 * 1000.0`, carried here as an exact
rational. -/
def bytesHuman (d : Nat) : Nat × ℚ × String :=
  ((byteUnits.findSome? fun u =>
      if 0 < d >>> u.1 then
        some (d >>> u.1, ((d % (1 <<< u.1) : Nat) : ℚ) * 1000 / ((1 <<< u.1 : Nat) : ℚ), u.2)
      else none)).getD (d, 0, "B")

/-- The addend `size + pad` of each processed section, in processing order,
replaying the `last` cursor exactly as the loop advances it.  Used to state
that the loop's accumulator equals a plain sum. -/
def sizePlusPads : List Sectn → Nat → List Nat
  | [], _ => []
  | s :: rest, last =>
    (s.size + padOf s.align last) :: sizePlusPads rest ((s.address + s.size) % M)

/-- The start addresses of the section lines of a report, in emission
order. -/
def sectionAddrs (lines : List Line) : List Nat :=
  lines.filterMap fun l =>
    match l with
    | .sec a _ _ _ => some a
    | .padding _ => none

/-- C1 — The claim says the scenario `last = 0x1005`, next section at
`0x1010` with alignment `0x10`, produces a padding amount of `0xb` (the gap
up to the aligned start, as the code's own comments `align 4 -> 4 - yy`
intend).  The code instead computes `pad = last & (align - 1)`, the
misalignment remainder `0x5`, and accumulates that: the run below ends with
total `0x5 + 0x10 + 0x5 = 0x1a`, not `0x5 + 0x10 + 0xb = 0x20`. -/
theorem c1_pad_is_remainder_not_gap :
    padOf 0x10 0x1005 = 0x5 ∧ padOf 0x10 0x1005 ≠ 0xb ∧
    print_alloc ⟨0x1000, 0x2000⟩
        [⟨0x1000, 0x5, 1, some "a"⟩, ⟨0x1010, 0x10, 0x10, some "b"⟩] =
      .ok ([Line.sec 0x1000 0x1005 0x5 "a", Line.padding 0x10,
            Line.sec 0x1010 0x1020 0x10 "b"], 0x1a) :=
  ⟨by decide, by decide, rfl⟩

/-- C4 — A sorted, non-overlapping section list contained in the region
`[0, 32)` (sections `[0, 15)` and `[16, 31)`, the second 16-aligned) on
which the reported total `45` exceeds the region capacity `32`: the code
adds `pad = 15 & 15 = 15` for the second section although the actual gap is
only one byte. -/
theorem c4_total_exceeds_capacity :
    print_alloc ⟨0, 32⟩ [⟨0, 15, 1, some "a"⟩, ⟨16, 15, 16, some "b"⟩] =
      .ok ([Line.sec 0 15 15 "a", Line.padding 16, Line.sec 16 31 15 "b"], 45) ∧
    32 - 0 < 45 ∧
    (0 : Nat) < 16 ∧ 0 + 15 ≤ 16 ∧
    ((⟨0, 32⟩ : Region).containsB 0 ∧ (⟨0, 32⟩ : Region).containsB 15 ∧
     (⟨0, 32⟩ : Region).containsB 16 ∧ (⟨0, 32⟩ : Region).containsB 31) :=
  ⟨rfl, by decide, by decide, by decide, by decide⟩

/-- Helper: for a non-zero `u64` alignment the wrapped subtraction
`align - 1` is the ordinary one. -/
theorem maskOf_of_pos (a : Nat) (h1 : 0 < a) (h2 : a < M) : maskOf a = a - 1 := by
  unfold maskOf
  have hM : 0 < M := by decide
  have h : a + (M - 1) = M + (a - 1) := by omega
  rw [h, Nat.add_mod_left, Nat.mod_eq_of_lt (by omega)]

/-- Helper: for a power-of-two alignment the pad is the remainder of `last`
modulo the alignment. -/
theorem padOf_two_pow (k last : Nat) (hk : k < 64) :
    padOf (2 ^ k) last = last % 2 ^ k := by
  have h1 : (0:Nat) < 2 ^ k := Nat.pos_pow_of_pos k (by decide)
  have h2 : 2 ^ k < M := by
    unfold M; exact Nat.pow_lt_pow_right (by decide) hk
  unfold padOf
  rw [maskOf_of_pos _ h1 h2, Nat.and_pow_two_sub_one_eq_mod]

/-- C2 — For a section whose alignment is a non-zero power of two `2^k`
(`k < 64`, so the value fits in `u64`), the computed pad is strictly
positive exactly when `last` is not a multiple of the alignment, and an
alignment of 1 always gives pad 0. -/
theorem c2_pad_pos_iff_misaligned (k last : Nat) (hk : k < 64) :
    (0 < padOf (2 ^ k) last ↔ ¬ (2 ^ k ∣ last)) ∧ padOf 1 last = 0 := by
  constructor
  · rw [padOf_two_pow k last hk]
    rw [Nat.pos_iff_ne_zero, ne_eq, ← Nat.dvd_iff_mod_eq_zero]
  · have h := padOf_two_pow 0 last (by decide)
    simpa [Nat.mod_one] using h

/-- Witness for C2 at `last = 0x1005`, alignment `2^4 = 0x10`. -/
theorem c2_pad_pos_iff_misaligned_witness :
    ((0 < padOf (2 ^ 4) 0x1005 ↔ ¬ ((2:Nat) ^ 4 ∣ 0x1005)) ∧ padOf 1 0x1005 = 0) :=
  c2_pad_pos_iff_misaligned 4 0x1005 (by decide)

/-- C10 (counterexample) — The claim says the padding computation validates
its precondition, treats alignment 0 as a data-quality fatal error, and
never underflows in `alignment - 1`.  The code has no such validation: for
alignment 0 the unguarded `u64` subtraction underflows to the mask
`2^64 - 1`, and the report is produced without any error — here a section
of alignment 0 placed at the start of `DRAM` yields an ordinary `.ok`
report (with a spurious padding line, since `pad = last & (2^64 - 1) =
0x3FC80000 > 0`). -/
theorem c10_counterexample :
    maskOf 0 = 2 ^ 64 - 1 ∧
    print_alloc DRAM [⟨0x3FC80000, 0x10, 0, some "z"⟩] =
      .ok ([Line.padding 0, Line.sec 0x3FC80000 0x3FC80010 0x10 "z"], 0x3FC80010) :=
  ⟨by decide, rfl⟩

/-- C10 (amended) — The padding step performs no validation at all: for
every non-zero alignment the mask is silently `alignment - 1` whether or
not the alignment is a power of two, alignment 0 underflows to mask
`2^64 - 1`, and the loop body never raises an error for any alignment (the
only error exit is an undecodable section name). -/
theorem c10_mask_unvalidated (a : Nat) (h1 : 0 < a) (h2 : a < M) :
    maskOf a = a - 1 ∧ maskOf 0 = M - 1 ∧
    (∀ total last (s : Sectn) nm, s.name = some nm →
      ∃ out, step total last s = .ok out) := by
  refine ⟨maskOf_of_pos a h1 h2, by decide, ?_⟩
  intro total last s nm hn
  simp only [step, hn]
  exact ⟨_, rfl⟩

/-- Witness for C10 (amended) at the non-power-of-two alignment 3. -/
theorem c10_mask_unvalidated_witness :
    maskOf 3 = 2 ∧ ∃ out, step 0 5 ⟨8, 4, 3, some "s"⟩ = .ok out :=
  ⟨(c10_mask_unvalidated 3 (by decide) (by decide)).1,
   (c10_mask_unvalidated 3 (by decide) (by decide)).2.2 0 5 ⟨8, 4, 3, some "s"⟩ "s" rfl⟩

/-- C6 — When the computed pad is positive, the emitted padding line is
`Line.padding s.align`: it is built from the alignment alone, so neither
the gap's address nor its byte size appears on it (its single numeral, the
alignment printed in the size column, always differs from the pad amount),
while the pad amount still enters the running total (`total += size +
pad`). -/
theorem c6_padding_line_elided (total last : Nat) (s : Sectn) (nm : String)
    (hn : s.name = some nm) (halign : s.align < M)
    (hpad : 0 < padOf s.align last) :
    step total last s =
      .ok ([Line.padding s.align,
            Line.sec s.address ((s.address + s.size) % M) s.size nm],
           (total + (s.size + padOf s.align last) % M) % M,
           (s.address + s.size) % M) ∧
    s.align ≠ padOf s.align last := by
  constructor
  · simp only [step, hn, if_pos hpad]
    rfl
  · rcases Nat.eq_zero_or_pos s.align with h0 | hpos
    · omega
    · have hle : padOf s.align last ≤ s.align - 1 := by
        unfold padOf
        rw [maskOf_of_pos s.align hpos halign]
        exact Nat.and_le_right
      omega

/-- Witness for C6: a section at `0x1010`, alignment `0x10`, processed with
`last = 0x1005`. -/
theorem c6_padding_line_elided_witness :
    (step 0 0x1005 ⟨0x1010, 0x10, 0x10, some "b"⟩ =
       .ok ([Line.padding 0x10, Line.sec 0x1010 ((0x1010 + 0x10) % M) 0x10 "b"],
            (0 + (0x10 + padOf 0x10 0x1005) % M) % M, (0x1010 + 0x10) % M)) ∧
    (0x10 : Nat) ≠ padOf 0x10 0x1005 :=
  c6_padding_line_elided 0 0x1005 ⟨0x1010, 0x10, 0x10, some "b"⟩ "b" rfl
    (by decide) (by decide)

/-- Helper: on success the loop emits exactly one section line per input
section, in the input list's own order (it never reorders). -/
theorem printAllocGo_sectionAddrs (l : List Sectn) :
    ∀ total last lines t, printAllocGo l total last = .ok (lines, t) →
      sectionAddrs lines = l.map Sectn.address := by
  induction l with
  | nil =>
    intro total last lines t h
    simp only [printAllocGo, Except.ok.injEq, Prod.mk.injEq] at h
    simp [← h.1, sectionAddrs]
  | cons s rest ih =>
    intro total last lines t h
    rcases hn : s.name with _ | nm
    · simp only [printAllocGo, step, hn] at h
      exact Except.noConfusion h
    · simp only [printAllocGo, step, hn] at h
      split at h
      · cases h
      · rename_i lines2 t2 heq
        simp only [Except.ok.injEq, Prod.mk.injEq] at h
        rcases h with ⟨hl, _⟩
        subst hl
        have htl := ih _ _ _ _ heq
        simp only [sectionAddrs, List.filterMap_append] at htl ⊢
        rw [htl]
        split <;> simp [List.filterMap]

/-- C5 (counterexample) — The claim says the reporter establishes ascending
start-address order itself.  It does not: on an upstream list yielding
`0x1020` before `0x1010` the section lines are emitted in that same
descending order. -/
theorem c5_counterexample :
    print_alloc ⟨0x1000, 0x2000⟩
        [⟨0x1020, 1, 1, some "b"⟩, ⟨0x1010, 1, 1, some "a"⟩] =
      .ok ([Line.sec 0x1020 0x1021 1 "b", Line.sec 0x1010 0x1011 1 "a"], 2) ∧
    sectionAddrs [Line.sec 0x1020 0x1021 1 "b", Line.sec 0x1010 0x1011 1 "a"] =
      [0x1020, 0x1010] ∧
    ¬ List.Sorted (· ≤ ·) [(0x1020 : Nat), 0x1010] :=
  ⟨rfl, rfl, by decide⟩

/-- C5 (amended) — The reporter performs no sorting of sections: it visits
them in exactly the order the upstream iterator yields them after region
filtering, so ascending start-address order is a precondition the caller
must guarantee (only the symbol diagnostic path sorts). -/
theorem c5_visits_upstream_order (r : Region) (secs : List Sectn)
    (lines : List Line) (t : Nat) (h : print_alloc r secs = .ok (lines, t)) :
    sectionAddrs lines =
      ((secs.filter fun s => r.containsB s.address).map Sectn.address) :=
  printAllocGo_sectionAddrs _ _ _ _ _ h

/-- Witness for C5 (amended) on the two-section descending input. -/
theorem c5_visits_upstream_order_witness :
    sectionAddrs [Line.sec 0x1020 0x1021 1 "b", Line.sec 0x1010 0x1011 1 "a"] =
      ((([⟨0x1020, 1, 1, some "b"⟩, ⟨0x1010, 1, 1, some "a"⟩] : List Sectn).filter
          fun s => (⟨0x1000, 0x2000⟩ : Region).containsB s.address).map
        Sectn.address) :=
  c5_visits_upstream_order ⟨0x1000, 0x2000⟩
    [⟨0x1020, 1, 1, some "b"⟩, ⟨0x1010, 1, 1, some "a"⟩]
    [Line.sec 0x1020 0x1021 1 "b", Line.sec 0x1010 0x1011 1 "a"] 2 rfl

/-- Helper: on success the loop's final accumulator is the seed plus the
sum of the per-section `size + pad` addends, reduced mod `2^64`. -/
theorem printAllocGo_total (l : List Sectn) :
    ∀ total last lines t, total < M → printAllocGo l total last = .ok (lines, t) →
      t = (total + (sizePlusPads l last).sum) % M := by
  induction l with
  | nil =>
    intro total last lines t htot h
    simp only [printAllocGo, Except.ok.injEq, Prod.mk.injEq] at h
    rw [← h.2]
    simp [sizePlusPads, Nat.mod_eq_of_lt htot]
  | cons s rest ih =>
    intro total last lines t htot h
    rcases hn : s.name with _ | nm
    · simp only [printAllocGo, step, hn] at h
      exact Except.noConfusion h
    · simp only [printAllocGo, step, hn] at h
      split at h
      · exact Except.noConfusion h
      · rename_i lines2 t2 heq
        simp only [Except.ok.injEq, Prod.mk.injEq] at h
        rcases h with ⟨_, ht⟩
        subst ht
        have h2 := ih _ _ _ _ (Nat.mod_lt _ (by decide)) heq
        rw [h2]
        simp only [sizePlusPads, List.sum_cons, M]
        omega

/-- C3 — For every region and section list, a successful report's final
total is the sum, over the processed (filtered) sections, of the section's
size plus the pad computed for it, starting from the accumulator seed 0
(reduced mod `2^64`, the `u64` width the accumulator lives in). -/
theorem c3_total_is_sum (r : Region) (secs : List Sectn) (lines : List Line)
    (t : Nat) (h : print_alloc r secs = .ok (lines, t)) :
    t = (sizePlusPads (secs.filter fun s => r.containsB s.address) r.start).sum % M := by
  have h2 := printAllocGo_total _ _ _ _ _ (by decide) h
  simpa using h2

/-- Witness for C3 on a two-section run: the reported total `0x1a` is
`(0x5 + 0) + (0x10 + 0x5)`. -/
theorem c3_total_is_sum_witness :
    (0x1a : Nat) =
      (sizePlusPads
        (([⟨0x1000, 0x5, 1, some "a"⟩, ⟨0x1010, 0x10, 0x10, some "b"⟩] :
            List Sectn).filter
          fun s => (⟨0x1000, 0x2000⟩ : Region).containsB s.address)
        0x1000).sum % M :=
  c3_total_is_sum ⟨0x1000, 0x2000⟩
    [⟨0x1000, 0x5, 1, some "a"⟩, ⟨0x1010, 0x10, 0x10, some "b"⟩]
    [Line.sec 0x1000 0x1005 0x5 "a", Line.padding 0x10,
     Line.sec 0x1010 0x1020 0x10 "b"] 0x1a rfl

/-- Helper: an undecodable section name anywhere in the processed list
aborts the whole loop with the `expect` message. -/
theorem printAllocGo_error_of_bad_name (l : List Sectn) :
    ∀ total last, (∃ s ∈ l, s.name = none) →
      printAllocGo l total last = .error "non utf-8 section name" := by
  induction l with
  | nil =>
    intro total last h
    rcases h with ⟨s, hs, _⟩
    cases hs
  | cons s rest ih =>
    intro total last h
    rcases hn : s.name with _ | nm
    · simp [printAllocGo, step, hn]
    · rcases h with ⟨s2, hs2, hname⟩
      rcases List.mem_cons.mp hs2 with rfl | hmem
      · rw [hn] at hname
        cases hname
      · simp only [printAllocGo, step, hn]
        rw [ih _ _ ⟨s2, hmem, hname⟩]

/-- C9 — Name-decoding failures are asymmetric: a symbol whose name fails
to decode is silently dropped from the diagnostic symbol listing (and the
numeric report, `print_alloc`'s section pass, never consults symbols at
all), whereas one undecodable section name inside the region makes the
whole report fail with the fatal `expect` error, not a per-item skip. -/
theorem c9_name_failure_asymmetry (r : Region) (xs ys : List Symbol)
    (sym : Symbol) (hsym : sym.name = none) (secs : List Sectn) (s : Sectn)
    (hmem : s ∈ secs) (hin : r.containsB s.address = true)
    (hname : s.name = none) :
    selectSyms r (xs ++ sym :: ys) = selectSyms r (xs ++ ys) ∧
    print_alloc r secs = .error "non utf-8 section name" := by
  constructor
  · simp only [selectSyms, List.filter_append, List.filterMap_append,
      List.filter_cons]
    split
    · simp [List.filterMap_cons, hsym]
    · rfl
  · unfold print_alloc
    apply printAllocGo_error_of_bad_name
    exact ⟨s, List.mem_filter.mpr ⟨hmem, hin⟩, hname⟩

/-- Witness for C9: one undecodable symbol among decodable ones, and one
undecodable section. -/
theorem c9_name_failure_asymmetry_witness :
    selectSyms ⟨0, 10⟩ ([] ++ ⟨1, none⟩ :: [⟨2, some "x"⟩]) =
      selectSyms ⟨0, 10⟩ ([] ++ [⟨2, some "x"⟩]) ∧
    print_alloc ⟨0, 10⟩ [⟨1, 1, 1, none⟩] = .error "non utf-8 section name" :=
  c9_name_failure_asymmetry ⟨0, 10⟩ [] [⟨2, some "x"⟩] ⟨1, none⟩ rfl
    [⟨1, 1, 1, none⟩] ⟨1, 1, 1, none⟩ (by decide) (by decide) rfl

/-- C7 — The human-readable rendering: 1536 bytes shows as integer part 1,
displayed fraction `.500`, unit `KiB`; 0 shows as `0.000` with the plain
byte unit; and every value below 1 KiB falls through to the plain byte unit
with a zero fraction.  (The middle component is the fraction already scaled
by 1000, exactly as the format string `".{:03.0}"` displays it.) -/
theorem c7_bytesHuman_rendering (d : Nat) (hd : d < 1024) :
    bytesHuman 1536 = (1, 500, "KiB") ∧ bytesHuman 0 = (0, 0, "B") ∧
    bytesHuman d = (d, 0, "B") := by
  refine ⟨?_, rfl, ?_⟩
  · have h1 : bytesHuman 1536 =
        (1536 >>> 10, ((1536 % (1 <<< 10) : Nat) : ℚ) * 1000 / ((1 <<< 10 : Nat) : ℚ),
         "KiB") := rfl
    rw [h1]
    have e1 : (1536 >>> 10 : Nat) = 1 := by decide
    have e2 : (1536 % (1 <<< 10) : Nat) = 512 := by decide
    have e3 : ((1 <<< 10 : Nat)) = 1024 := by decide
    rw [e1, e2, e3]
    norm_num
  · have h60 : d >>> 60 = 0 := by
      rw [Nat.shiftRight_eq_div_pow]
      exact Nat.div_eq_of_lt (lt_of_lt_of_le hd (by norm_num))
    have h50 : d >>> 50 = 0 := by
      rw [Nat.shiftRight_eq_div_pow]
      exact Nat.div_eq_of_lt (lt_of_lt_of_le hd (by norm_num))
    have h40 : d >>> 40 = 0 := by
      rw [Nat.shiftRight_eq_div_pow]
      exact Nat.div_eq_of_lt (lt_of_lt_of_le hd (by norm_num))
    have h30 : d >>> 30 = 0 := by
      rw [Nat.shiftRight_eq_div_pow]
      exact Nat.div_eq_of_lt (lt_of_lt_of_le hd (by norm_num))
    have h20 : d >>> 20 = 0 := by
      rw [Nat.shiftRight_eq_div_pow]
      exact Nat.div_eq_of_lt (lt_of_lt_of_le hd (by norm_num))
    have h10 : d >>> 10 = 0 := by
      rw [Nat.shiftRight_eq_div_pow]
      exact Nat.div_eq_of_lt (lt_of_lt_of_le hd (by norm_num))
    simp [bytesHuman, byteUnits, List.findSome?, h60, h50, h40, h30, h20, h10]

/-- Witness for C7 at the sub-KiB value 1000. -/
theorem c7_bytesHuman_rendering_witness :
    bytesHuman 1536 = (1, 500, "KiB") ∧ bytesHuman 0 = (0, 0, "B") ∧
    bytesHuman 1000 = (1000, 0, "B") :=
  c7_bytesHuman_rendering 1000 (by decide)

/-- Helper: the comparator keeps `a` before `b` exactly for a strictly
smaller address, or an equal address with the second name not above the
first (descending-name tie-break). -/
theorem symLe_iff (a b : Nat × String) :
    symLe a b = true ↔ a.1 < b.1 ∨ (a.1 = b.1 ∧ b.2 ≤ a.2) := by
  unfold symLe symCmp
  rcases h1 : compare a.1 b.1 with _ | _ | _
  · have hlt := compare_lt_iff_lt.mp h1
    simp only [Ordering.then]
    simp [hlt]
    decide
  · have heq := compare_eq_iff_eq.mp h1
    have hswap : ((compare a.2 b.2).swap != Ordering.gt) = true ↔
        compare a.2 b.2 ≠ Ordering.lt := by
      cases h : compare a.2 b.2 <;> simp [Ordering.swap] <;> decide
    simp only [Ordering.then]
    rw [hswap, compare_ge_iff_ge]
    constructor
    · intro h2
      exact Or.inr ⟨heq, h2⟩
    · rintro (h2 | ⟨_, h2⟩)
      · exact absurd h2 (by simp [heq])
      · exact h2
  · have hgt := compare_gt_iff_gt.mp h1
    simp only [Ordering.then]
    constructor
    · intro h2
      exact absurd h2 (by decide)
    · rintro (h2 | ⟨h2, _⟩) <;> omega

/-- Helper: the comparator's keep-before relation is transitive. -/
theorem symLe_trans (a b c : Nat × String) :
    symLe a b = true → symLe b c = true → symLe a c = true := by
  simp only [symLe_iff]
  rintro (h1 | ⟨h1, h1n⟩) (h2 | ⟨h2, h2n⟩)
  · exact Or.inl (h1.trans h2)
  · exact Or.inl (h2 ▸ h1)
  · exact Or.inl (h1 ▸ h2)
  · exact Or.inr ⟨h1.trans h2, h2n.trans h1n⟩

/-- Helper: the comparator's keep-before relation is total. -/
theorem symLe_total (a b : Nat × String) : (symLe a b || symLe b a) = true := by
  simp only [Bool.or_eq_true, symLe_iff]
  rcases Nat.lt_trichotomy a.1 b.1 with h | h | h
  · exact Or.inl (Or.inl h)
  · rcases le_total a.2 b.2 with h2 | h2
    · exact Or.inr (Or.inr ⟨h.symm, h2⟩)
    · exact Or.inl (Or.inr ⟨h, h2⟩)
  · exact Or.inr (Or.inl h)

/-- C8 — The diagnostic symbol sort is by ascending address with ties
broken by descending name: at the same address `"B"` sorts before `"A"`;
in general the sorted output is pairwise ordered by that relation, is a
permutation of the input, and the sort is stable (any sublist already in
comparator order keeps its relative order); determinism holds because
`sortSyms` is a function of its input. -/
theorem c8_symbol_ordering (l : List (Nat × String)) :
    sortSyms [(5, "A"), (5, "B")] = [(5, "B"), (5, "A")] ∧
    (sortSyms l).Pairwise (fun x y => x.1 < y.1 ∨ (x.1 = y.1 ∧ y.2 ≤ x.2)) ∧
    (sortSyms l).Perm l ∧
    (∀ c : List (Nat × String), c.Pairwise (fun x y => symLe x y = true) →
      c.Sublist l → c.Sublist (sortSyms l)) := by
  refine ⟨?_, ?_, List.mergeSort_perm l symLe, ?_⟩
  · have hA : symLe (5, "A") (5, "B") = false := by decide
    have hB : symLe (5, "B") (5, "A") = true := by decide
    simp [sortSyms, List.mergeSort, List.merge, hA, hB]
  · have hs := List.sorted_mergeSort symLe_trans symLe_total l
    exact hs.imp fun h => (symLe_iff _ _).mp h
  · intro c hc hsub
    exact List.sublist_mergeSort symLe_trans symLe_total hc hsub

end Mem
